import Mathlib

/-!
Verification of the swizzle-table generator `src/spirv/src/data/shuffle.py`.

The script consists of four nested-loop emitters (`unit_swizzels`,
`vec2_swizzels`, `vec3_swizzels`, `vec4_swizzels`) and a top-level driving
sequence that calls each of them for `r = 2, 3, 4`, printing a blank line
after each batch.  We embed each emitter as a Lean function producing the
list of emitted entries; each entry records the loop indices, the label
string built from the per-index conditional chains, and the printed line.
-/

/-- The repeated `if i == 0: c = "x" elif ...` conditional chain that turns a
loop index into a component label; identical at every loop-nest depth in the
source, with `c = ""` as the fall-through for indices `≥ 4`. -/
def component (i : Nat) : String :=
  if i = 0 then "x"
  else if i = 1 then "y"
  else if i = 2 then "z"
  else if i = 3 then "w"
  else ""

/-- One emitted entry: the tuple of loop indices, the concatenated label
string (the `c0 ++ c1 ++ ...` the source builds), and the full printed
line. -/
structure SwizzleLine where
  idx : List Nat
  label : String
  line : String
deriving DecidableEq

/-- Embedding of `unit_swizzels(r)`: one loop `for i in range(0, r)` printing
`"{}, {},".format(c, i)`. -/
def unit_swizzels (r : Nat) : List SwizzleLine :=
  (List.range r).map fun i =>
    { idx := [i]
      label := component i
      line := component i ++ ", " ++ toString i ++ "," }

/-- Embedding of `vec2_swizzels(r)`: two nested loops printing
`"{}{}, {}, {},".format(c0, c1, i, j)`. -/
def vec2_swizzels (r : Nat) : List SwizzleLine :=
  (List.range r).flatMap fun i =>
    (List.range r).map fun j =>
      { idx := [i, j]
        label := component i ++ component j
        line := component i ++ component j ++ ", " ++
          toString i ++ ", " ++ toString j ++ "," }

/-- Embedding of `vec3_swizzels(r)`: three nested loops printing
`"{}{}{}, {}, {}, {},".format(c0, c1, c2, i, j, k)`. -/
def vec3_swizzels (r : Nat) : List SwizzleLine :=
  (List.range r).flatMap fun i =>
    (List.range r).flatMap fun j =>
      (List.range r).map fun k =>
        { idx := [i, j, k]
          label := component i ++ component j ++ component k
          line := component i ++ component j ++ component k ++ ", " ++
            toString i ++ ", " ++ toString j ++ ", " ++ toString k ++ "," }

/-- Embedding of `vec4_swizzels(r)`: four nested loops printing
`"{}{}{}{}, {}, {}, {}, {},".format(c0, c1, c2, c3, i, j, k, l)`. -/
def vec4_swizzels (r : Nat) : List SwizzleLine :=
  (List.range r).flatMap fun i =>
    (List.range r).flatMap fun j =>
      (List.range r).flatMap fun k =>
        (List.range r).map fun l =>
          { idx := [i, j, k, l]
            label := component i ++ component j ++ component k ++ component l
            line := component i ++ component j ++ component k ++ component l ++
              ", " ++ toString i ++ ", " ++ toString j ++ ", " ++
              toString k ++ ", " ++ toString l ++ "," }

/-- The spec's `emit(k, r)` contract dispatched onto the four source
functions: `k = 1` is `unit_swizzels`, `k = 2` is `vec2_swizzels`, `k = 3` is
`vec3_swizzels`, `k = 4` is `vec4_swizzels`. -/
def emit (k r : Nat) : List SwizzleLine :=
  if k = 1 then unit_swizzels r
  else if k = 2 then vec2_swizzels r
  else if k = 3 then vec3_swizzels r
  else if k = 4 then vec4_swizzels r
  else []

/-- The top-level driving sequence of the script: the `(k, r)` pairs of the
twelve emitter invocations, in source order. -/
def script_calls : List (Nat × Nat) :=
  [(1, 2), (1, 3), (1, 4),
   (2, 2), (2, 3), (2, 4),
   (3, 2), (3, 3), (3, 4),
   (4, 2), (4, 3), (4, 4)]

/-- The full standard-output stream of the script: each batch's lines
followed by the blank line the `print("")` after it produces, in source
order. -/
def program_output : List String :=
  (unit_swizzels 2).map SwizzleLine.line ++ [""] ++
  (unit_swizzels 3).map SwizzleLine.line ++ [""] ++
  (unit_swizzels 4).map SwizzleLine.line ++ [""] ++
  (vec2_swizzels 2).map SwizzleLine.line ++ [""] ++
  (vec2_swizzels 3).map SwizzleLine.line ++ [""] ++
  (vec2_swizzels 4).map SwizzleLine.line ++ [""] ++
  (vec3_swizzels 2).map SwizzleLine.line ++ [""] ++
  (vec3_swizzels 3).map SwizzleLine.line ++ [""] ++
  (vec3_swizzels 4).map SwizzleLine.line ++ [""] ++
  (vec4_swizzels 2).map SwizzleLine.line ++ [""] ++
  (vec4_swizzels 3).map SwizzleLine.line ++ [""] ++
  (vec4_swizzels 4).map SwizzleLine.line ++ [""]

/-- Claim C3: the batch `emit(k=1, r=2)` produces exactly the two lines
`x, 0,` then `y, 1,`, in that order. -/
theorem c3_unit_r2_lines :
    (emit 1 2).map SwizzleLine.line = ["x, 0,", "y, 1,"] := by
  decide

/-- Claim C2 counterexample: `emit(k=2, r=2)` does not produce the four
space-free lines `xx,0,0,`, `xy,0,1,`, `yx,1,0,`, `yy,1,1,` the claim
states: the source format string `"{}{}, {}, {},"` puts a space after each
comma. -/
theorem c2_spacing_counterexample :
    ¬ ((emit 2 2).map SwizzleLine.line =
      ["xx,0,0,", "xy,0,1,", "yx,1,0,", "yy,1,1,"]) := by
  decide

/-- Claim C2 (amended): the batch `emit(k=2, r=2)` produces exactly four
lines, in this order and with exactly this text: `xx, 0, 0,` then
`xy, 0, 1,` then `yx, 1, 0,` then `yy, 1, 1,` (comma-space separators, as
the source format string prints). -/
theorem c2_vec2_r2_lines :
    (emit 2 2).map SwizzleLine.line =
      ["xx, 0, 0,", "xy, 0, 1,", "yx, 1, 0,", "yy, 1, 1,"] := by
  decide

/-! ### The Cartesian product of index tuples -/

/-- All tuples of length `k` with entries drawn from `\x7b0, …, r-1\x7d`, in
lexicographic order with the leftmost coordinate varying slowest. -/
def allTuples : Nat → Nat → List (List Nat)
  | 0, _ => [[]]
  | k + 1, r => (List.range r).flatMap fun i => (allTuples k r).map fun t => i :: t

theorem allTuples_length (k r : Nat) : (allTuples k r).length = r ^ k := by
  induction k with
  | zero => simp [allTuples]
  | succ k ih =>
    simp only [allTuples, List.length_flatMap, Function.comp_def, List.length_map, ih]
    rw [List.map_const', List.length_range, List.sum_const_nat, pow_succ, Nat.mul_comm]

theorem mem_allTuples {r : Nat} : ∀ {k : Nat} {t : List Nat},
    t ∈ allTuples k r ↔ t.length = k ∧ ∀ x ∈ t, x < r := by
  intro k
  induction k with
  | zero =>
    intro t
    simp only [allTuples, List.mem_singleton]
    constructor
    · rintro rfl
      exact ⟨rfl, by simp⟩
    · rintro ⟨h, -⟩
      exact List.length_eq_zero.mp h
  | succ k ih =>
    intro t
    simp only [allTuples, List.mem_flatMap, List.mem_map, List.mem_range]
    constructor
    · rintro ⟨i, hi, t', ht', rfl⟩
      rcases ih.mp ht' with ⟨hlen, hlt⟩
      refine ⟨by simp [hlen], ?_⟩
      intro x hx
      rcases List.mem_cons.mp hx with rfl | hx
      · exact hi
      · exact hlt x hx
    · rintro ⟨hlen, hlt⟩
      cases t with
      | nil => simp at hlen
      | cons a t' =>
        exact ⟨a, hlt a (by simp),
          ⟨t', ih.mpr ⟨by simpa using hlen, fun x hx => hlt x (List.mem_cons_of_mem _ hx)⟩,
            rfl⟩⟩

theorem allTuples_nodup (k r : Nat) : (allTuples k r).Nodup := by
  induction k with
  | zero => simp [allTuples]
  | succ k ih =>
    rw [show allTuples (k + 1) r =
        (List.range r).flatMap (fun i => (allTuples k r).map fun t => i :: t) from rfl]
    rw [List.nodup_flatMap]
    refine ⟨fun i _ => ih.map fun t t' h => List.tail_eq_of_cons_eq h, ?_⟩
    refine List.Pairwise.imp_of_mem ?_ (List.nodup_range r)
    intro i j _ _ hij
    intro s hs hs'
    rcases List.mem_map.mp hs with ⟨t, -, rfl⟩
    rcases List.mem_map.mp hs' with ⟨t', -, h⟩
    exact hij (List.head_eq_of_cons_eq h.symm)

/-! ### Base-`r` value of a tuple -/

/-- The base-`r` numeric value of an index tuple, the rightmost coordinate
being the least significant digit. -/
def rank (r : Nat) (t : List Nat) : Nat := t.foldl (fun a d => a * r + d) 0

theorem rank_foldl_shift (r : Nat) (t : List Nat) (a : Nat) :
    t.foldl (fun acc d => acc * r + d) a = a * r ^ t.length + rank r t := by
  induction t generalizing a with
  | nil => simp [rank]
  | cons d t ih =>
    show t.foldl _ (a * r + d) = _
    rw [ih (a * r + d)]
    have hd : rank r (d :: t) = d * r ^ t.length + rank r t := by
      show t.foldl _ (0 * r + d) = _
      rw [ih (0 * r + d)]
      ring
    rw [hd]
    simp [pow_succ]
    ring

theorem rank_cons (r d : Nat) (t : List Nat) :
    rank r (d :: t) = d * r ^ t.length + rank r t := by
  show t.foldl _ (0 * r + d) = _
  rw [rank_foldl_shift r t (0 * r + d)]
  ring

theorem range_mul_flatMap (a b : Nat) :
    (List.range a).flatMap (fun i => (List.range b).map fun j => i * b + j) =
      List.range (a * b) := by
  induction a with
  | zero => simp
  | succ a ih =>
    rw [List.range_succ, Nat.succ_mul, List.range_add, List.flatMap_append, ih]
    simp

theorem allTuples_map_rank (k r : Nat) :
    (allTuples k r).map (rank r) = List.range (r ^ k) := by
  induction k with
  | zero =>
    show [rank r []] = List.range 1
    rfl
  | succ k ih =>
    have h1 : ∀ i : Nat, ((allTuples k r).map fun t => i :: t).map (rank r)
        = (List.range (r ^ k)).map fun n => i * r ^ k + n := by
      intro i
      rw [List.map_map, ← ih, List.map_map]
      apply List.map_congr_left
      intro t ht
      have hlen : t.length = k := (mem_allTuples.mp ht).1
      simp [Function.comp, rank_cons, hlen]
    calc (allTuples (k + 1) r).map (rank r)
        = (List.range r).flatMap
            (fun i => ((allTuples k r).map fun t => i :: t).map (rank r)) := by
          rw [show allTuples (k + 1) r =
            (List.range r).flatMap (fun i => (allTuples k r).map fun t => i :: t) from rfl,
            List.map_flatMap]
      _ = (List.range r).flatMap
            (fun i => (List.range (r ^ k)).map fun n => i * r ^ k + n) := by
          simp only [h1]
      _ = List.range (r * r ^ k) := range_mul_flatMap r (r ^ k)
      _ = List.range (r ^ (k + 1)) := by rw [pow_succ, Nat.mul_comm]

/-! ### The emitted index tuples are exactly the Cartesian product -/

theorem flatMap_map_singleton {α β : Type} (l : List α) (f : α → β) :
    (l.flatMap fun x => [f x]) = l.map f := by
  induction l with
  | nil => rfl
  | cons a l ih => simp [ih]

theorem unit_map_idx (r : Nat) :
    (unit_swizzels r).map SwizzleLine.idx = allTuples 1 r := by
  simp [unit_swizzels, allTuples, List.map_map, Function.comp_def, flatMap_map_singleton]

theorem vec2_map_idx (r : Nat) :
    (vec2_swizzels r).map SwizzleLine.idx = allTuples 2 r := by
  simp [vec2_swizzels, allTuples, List.map_flatMap, List.map_map, Function.comp_def, flatMap_map_singleton]

theorem vec3_map_idx (r : Nat) :
    (vec3_swizzels r).map SwizzleLine.idx = allTuples 3 r := by
  simp [vec3_swizzels, allTuples, List.map_flatMap, List.map_map, Function.comp_def, flatMap_map_singleton]

theorem vec4_map_idx (r : Nat) :
    (vec4_swizzels r).map SwizzleLine.idx = allTuples 4 r := by
  simp [vec4_swizzels, allTuples, List.map_flatMap, List.map_map, Function.comp_def, flatMap_map_singleton]

theorem emit_map_idx : ∀ k ∈ [1, 2, 3, 4], ∀ r : Nat,
    (emit k r).map SwizzleLine.idx = allTuples k r := by
  intro k hk r
  fin_cases hk
  · simpa [emit] using unit_map_idx r
  · simpa [emit] using vec2_map_idx r
  · simpa [emit] using vec3_map_idx r
  · simpa [emit] using vec4_map_idx r

theorem emit_length : ∀ k ∈ [1, 2, 3, 4], ∀ r : Nat,
    (emit k r).length = r ^ k := by
  intro k hk r
  have h := congrArg List.length (emit_map_idx k hk r)
  simpa [allTuples_length] using h

/-- Claim C4: for every `k` in 1..4 and `r` in 2..4, the batch `emit(k, r)`
produces exactly `r ^ k` lines, its index tuples are pairwise distinct, and
the emitted tuples are exactly the Cartesian product of `k` copies of
`\x7b0, …, r-1\x7d`. -/
theorem c4_cartesian_product :
    ∀ k ∈ [1, 2, 3, 4], ∀ r ∈ [2, 3, 4],
      (emit k r).length = r ^ k ∧
      ((emit k r).map SwizzleLine.idx).Nodup ∧
      ∀ t : List Nat,
        t ∈ (emit k r).map SwizzleLine.idx ↔ t.length = k ∧ ∀ x ∈ t, x < r := by
  intro k hk r _
  have h := emit_map_idx k hk r
  refine ⟨emit_length k hk r, ?_, ?_⟩
  · rw [h]
    exact allTuples_nodup k r
  · intro t
    rw [h]
    exact mem_allTuples

/-- Witness for C4 at `k = 3`, `r = 2`. -/
theorem c4_witness :
    (3 ∈ [1, 2, 3, 4] ∧ 2 ∈ [2, 3, 4]) ∧
    ((emit 3 2).length = 2 ^ 3 ∧
      ((emit 3 2).map SwizzleLine.idx).Nodup ∧
      ∀ t : List Nat,
        t ∈ (emit 3 2).map SwizzleLine.idx ↔ t.length = 3 ∧ ∀ x ∈ t, x < 2) :=
  ⟨⟨by decide, by decide⟩, c4_cartesian_product 3 (by decide) 2 (by decide)⟩

theorem emit_map_rank : ∀ k ∈ [1, 2, 3, 4], ∀ r : Nat,
    (emit k r).map (fun e => rank r e.idx) = List.range (r ^ k) := by
  intro k hk r
  have h : (emit k r).map (fun e => rank r e.idx)
      = ((emit k r).map SwizzleLine.idx).map (rank r) := by
    rw [List.map_map]
    rfl
  rw [h, emit_map_idx k hk r, allTuples_map_rank]

/-- Claim C5: for every `k` in 1..4 and `r` in 2..4, the index tuples of a
batch are emitted in lexicographic order, rightmost coordinate fastest: the
base-`r` value of the tuple on line `n + 1` is one more than the base-`r`
value of the tuple on line `n`. -/
theorem c5_lex_successor :
    ∀ k ∈ [1, 2, 3, 4], ∀ r ∈ [2, 3, 4], ∀ n : Nat, ∀ a b : SwizzleLine,
      (emit k r)[n]? = some a → (emit k r)[n + 1]? = some b →
      rank r b.idx = rank r a.idx + 1 := by
  intro k hk r _ n a b ha hb
  have hm := emit_map_rank k hk r
  have hn1 : n + 1 < (emit k r).length := (List.getElem?_eq_some.mp hb).1
  have hn : n < (emit k r).length := by omega
  have hlen : (emit k r).length = r ^ k := emit_length k hk r
  have h1 : (List.range (r ^ k))[n]? = some (rank r a.idx) := by
    rw [← hm, List.getElem?_map, ha]
    rfl
  have h2 : (List.range (r ^ k))[n + 1]? = some (rank r b.idx) := by
    rw [← hm, List.getElem?_map, hb]
    rfl
  rw [List.getElem?_range (hlen ▸ hn)] at h1
  rw [List.getElem?_range (hlen ▸ hn1)] at h2
  rw [Option.some_inj] at h1 h2
  omega

/-- Witness for C5 at `k = 2`, `r = 2`, lines 1 and 2 of the batch. -/
theorem c5_witness :
    rank 2 (SwizzleLine.mk [1, 0] "yx" "yx, 1, 0,").idx =
      rank 2 (SwizzleLine.mk [0, 1] "xy" "xy, 0, 1,").idx + 1 :=
  c5_lex_successor 2 (by decide) 2 (by decide) 1
    (SwizzleLine.mk [0, 1] "xy" "xy, 0, 1,")
    (SwizzleLine.mk [1, 0] "yx" "yx, 1, 0,")
    (by decide) (by decide)

/-- Claim C1 counterexample: the top-level script does not invoke the
emitter nine times; `script_calls` has twelve entries. -/
theorem c1_nine_calls_counterexample : ¬ (script_calls.length = 9) := by
  decide

/-- Claim C1 (amended): the top-level script invokes the emitter twelve
times total, covering the four swizzle lengths `k = 1, 2, 3, 4` in that
order, each length invoked for `r = 2`, then `r = 3`, then `r = 4`, and a
separating blank line is printed after each completed `(k, r)` batch. -/
theorem c1_driving_sequence :
    script_calls.length = 12 ∧
    script_calls = [1, 2, 3, 4].flatMap (fun k => [2, 3, 4].map fun r => (k, r)) ∧
    program_output =
      script_calls.flatMap fun p => (emit p.1 p.2).map SwizzleLine.line ++ [""] := by
  refine ⟨by decide, by decide, ?_⟩
  simp [program_output, script_calls, emit]

/-- One invocation of `emit(k, r)` as a transformer of the process-wide
output stream: the lines emitted so far, with the batch's lines appended. -/
def run_emit (k r : Nat) (out : List String) : List String :=
  out ++ (emit k r).map SwizzleLine.line

/-- Claim C8: the emitter is deterministic and restartable: two invocations
of `emit` with the same `k` and `r`, started from any two prior output
states, append identical sequences of lines in the same order. -/
theorem c8_restartable :
    ∀ k ∈ [1, 2, 3, 4], ∀ r : Nat, ∀ out out' : List String,
      (run_emit k r out).drop out.length = (run_emit k r out').drop out'.length := by
  intro k _ r out out'
  simp [run_emit, List.drop_left]

/-- Witness for C8 at `k = 2`, `r = 3`, from two different prior states. -/
theorem c8_witness :
    2 ∈ [1, 2, 3, 4] ∧
    (run_emit 2 3 ["x, 0,"]).drop (["x, 0,"].length) =
      (run_emit 2 3 []).drop (([] : List String).length) :=
  ⟨by decide, c8_restartable 2 (by decide) 3 ["x, 0,"] []⟩

/-- Claim C10: every one of the four emitter functions is total and emits
exactly `r ^ k` lines for its `k`, for every natural `r` including `r = 0`,
`r = 1`, and `r > 4`; in particular `r = 0` emits no lines and `r = 1`
emits exactly one line. -/
theorem c10_total_lengths :
    (∀ r : Nat,
      (unit_swizzels r).length = r ^ 1 ∧
      (vec2_swizzels r).length = r ^ 2 ∧
      (vec3_swizzels r).length = r ^ 3 ∧
      (vec4_swizzels r).length = r ^ 4) ∧
    ∀ k ∈ [1, 2, 3, 4], emit k 0 = [] ∧ (emit k 1).length = 1 := by
  constructor
  · intro r
    refine ⟨?_, ?_, ?_, ?_⟩
    · simpa [emit] using emit_length 1 (by decide) r
    · simpa [emit] using emit_length 2 (by decide) r
    · simpa [emit] using emit_length 3 (by decide) r
    · simpa [emit] using emit_length 4 (by decide) r
  · intro k hk
    fin_cases hk <;> exact ⟨by decide, by decide⟩

/-- Witness for C10 at `r = 5` and `k = 4`. -/
theorem c10_witness :
    (vec3_swizzels 5).length = 5 ^ 3 ∧ emit 4 0 = [] ∧ (emit 4 1).length = 1 :=
  ⟨(c10_total_lengths.1 5).2.2.1, (c10_total_lengths.2 4 (by decide)).1,
    (c10_total_lengths.2 4 (by decide)).2⟩

/-- The spec's Component Alphabet: the fixed ordered sequence of four
single-character labels indexed 0..3. -/
def alphabet : List Char := ['x', 'y', 'z', 'w']

set_option maxRecDepth 4096 in
/-- Claim C6: on every line of every in-spec batch, the label string has
exactly `k` characters and its `m`-th character is the Component Alphabet
entry at the line's `m`-th index. -/
theorem c6_label_chars :
    ∀ k ∈ [1, 2, 3, 4], ∀ r ∈ [2, 3, 4], ∀ e ∈ emit k r,
      e.label.length = k ∧
      e.idx.length = k ∧
      e.label.data = e.idx.map fun i => alphabet.getD i ' ' := by
  intro k hk r hr
  fin_cases hk <;> fin_cases hr <;> decide

/-- Witness for C6 at `k = 1`, `r = 2`, the first line of the batch. -/
theorem c6_witness :
    (SwizzleLine.mk [0] "x" "x, 0,").label.length = 1 ∧
    (SwizzleLine.mk [0] "x" "x, 0,").idx.length = 1 ∧
    (SwizzleLine.mk [0] "x" "x, 0,").label.data =
      (SwizzleLine.mk [0] "x" "x, 0,").idx.map fun i => alphabet.getD i ' ' :=
  c6_label_chars 1 (by decide) 2 (by decide)
    (SwizzleLine.mk [0] "x" "x, 0,") (by decide)

/-! ### The generic Cartesian-product emitter of the spec's design notes -/

/-- The single shared index-to-label lookup of the spec's §9 design note:
the Component Alphabet indexed directly, empty for out-of-range indices. -/
def labelOf (i : Nat) : String := ["x", "y", "z", "w"].getD i ""

/-- The rendered label of an index tuple: the concatenation of the alphabet
entries at its indices. -/
def labelStr (t : List Nat) : String := String.join (t.map labelOf)

/-- The comma-space separated rendering of the numeric indices of a line. -/
def idxStr : List Nat → String
  | [] => ""
  | [i] => toString i
  | i :: j :: t => toString i ++ ", " ++ idxStr (j :: t)

/-- The generic Cartesian-product emitter the spec's design notes call for:
one function of the depth `k` and the bound `r`, enumerating the tuples of
`allTuples k r` and rendering each with the shared lookup `labelOf`. -/
def genericEmit (k r : Nat) : List SwizzleLine :=
  (allTuples k r).map fun t =>
    { idx := t
      label := labelStr t
      line := labelStr t ++ ", " ++ idxStr t ++ "," }

theorem component_eq_labelOf (i : Nat) : component i = labelOf i := by
  match i with
  | 0 => rfl
  | 1 => rfl
  | 2 => rfl
  | 3 => rfl
  | n + 4 => rfl

theorem string_foldl_append (l : List String) (a : String) :
    l.foldl (fun r s => r ++ s) a = a ++ String.join l := by
  induction l generalizing a with
  | nil =>
    show a = a ++ ""
    rw [String.append_empty]
  | cons s l ih =>
    show l.foldl _ (a ++ s) = a ++ String.join (s :: l)
    rw [ih (a ++ s)]
    show _ = a ++ l.foldl _ ("" ++ s)
    rw [ih ("" ++ s), String.empty_append, String.append_assoc]

theorem labelStr_nil : labelStr [] = "" := rfl

theorem labelStr_cons (i : Nat) (t : List Nat) :
    labelStr (i :: t) = labelOf i ++ labelStr t := by
  show (t.map labelOf).foldl _ ("" ++ labelOf i) = _
  rw [string_foldl_append, String.empty_append]
  rfl

theorem generic_eq_unit (r : Nat) : genericEmit 1 r = unit_swizzels r := by
  have h : allTuples 1 r = (List.range r).map fun i => [i] := by
    simp [allTuples, flatMap_map_singleton]
  unfold genericEmit unit_swizzels
  rw [h, List.map_map]
  apply List.map_congr_left
  intro i _
  simp [Function.comp_def, labelStr_cons, labelStr_nil, idxStr,
    component_eq_labelOf, String.append_empty, String.append_assoc]

theorem generic_eq_vec2 (r : Nat) : genericEmit 2 r = vec2_swizzels r := by
  have h : allTuples 2 r =
      (List.range r).flatMap fun i => (List.range r).map fun j => [i, j] := by
    simp [allTuples, flatMap_map_singleton, List.map_flatMap, List.map_map,
      Function.comp_def]
  unfold genericEmit vec2_swizzels
  rw [h, List.map_flatMap]
  apply congrArg
  funext i
  rw [List.map_map]
  apply List.map_congr_left
  intro j _
  simp [Function.comp_def, labelStr_cons, labelStr_nil, idxStr,
    component_eq_labelOf, String.append_empty, String.append_assoc]

theorem generic_eq_vec3 (r : Nat) : genericEmit 3 r = vec3_swizzels r := by
  have h : allTuples 3 r =
      (List.range r).flatMap fun i => (List.range r).flatMap fun j =>
        (List.range r).map fun k => [i, j, k] := by
    simp [allTuples, flatMap_map_singleton, List.map_flatMap, List.map_map,
      Function.comp_def]
  unfold genericEmit vec3_swizzels
  rw [h, List.map_flatMap]
  apply congrArg
  funext i
  rw [List.map_flatMap]
  apply congrArg
  funext j
  rw [List.map_map]
  apply List.map_congr_left
  intro k _
  simp [Function.comp_def, labelStr_cons, labelStr_nil, idxStr,
    component_eq_labelOf, String.append_empty, String.append_assoc]

theorem generic_eq_vec4 (r : Nat) : genericEmit 4 r = vec4_swizzels r := by
  have h : allTuples 4 r =
      (List.range r).flatMap fun i => (List.range r).flatMap fun j =>
        (List.range r).flatMap fun k => (List.range r).map fun l => [i, j, k, l] := by
    simp [allTuples, flatMap_map_singleton, List.map_flatMap, List.map_map,
      Function.comp_def]
  unfold genericEmit vec4_swizzels
  rw [h, List.map_flatMap]
  apply congrArg
  funext i
  rw [List.map_flatMap]
  apply congrArg
  funext j
  rw [List.map_flatMap]
  apply congrArg
  funext k
  rw [List.map_map]
  apply List.map_congr_left
  intro l _
  simp [Function.comp_def, labelStr_cons, labelStr_nil, idxStr,
    component_eq_labelOf, String.append_empty, String.append_assoc]

theorem generic_eq_emit : ∀ k ∈ [1, 2, 3, 4], ∀ r : Nat,
    genericEmit k r = emit k r := by
  intro k hk r
  fin_cases hk
  · simpa [emit] using generic_eq_unit r
  · simpa [emit] using generic_eq_vec2 r
  · simpa [emit] using generic_eq_vec3 r
  · simpa [emit] using generic_eq_vec4 r

/-- Claim C9: the single generic Cartesian-product emitter, using the one
shared index-to-label lookup over the fixed alphabet, produces for every
`k` in 1..4 and every `r` exactly the same sequence of entries as the
corresponding hand-unrolled function the script defines. -/
theorem c9_generic_refinement :
    ∀ k ∈ [1, 2, 3, 4], ∀ r : Nat, genericEmit k r = emit k r := by
  intro k hk r
  exact generic_eq_emit k hk r

/-- Witness for C9 at `k = 4`, `r = 3`. -/
theorem c9_witness :
    4 ∈ [1, 2, 3, 4] ∧ genericEmit 4 3 = emit 4 3 :=
  ⟨by decide, c9_generic_refinement 4 (by decide) 3⟩

theorem component_eq_empty (i : Nat) (h : 4 ≤ i) : component i = "" := by
  have h0 : i ≠ 0 := by omega
  have h1 : i ≠ 1 := by omega
  have h2 : i ≠ 2 := by omega
  have h3 : i ≠ 3 := by omega
  simp [component, h0, h1, h2, h3]

theorem labelStr_eq_join_component (t : List Nat) :
    labelStr t = String.join (t.map component) := by
  unfold labelStr
  rw [List.map_congr_left fun i _ => (component_eq_labelOf i).symm]

theorem emit_shape : ∀ k ∈ [1, 2, 3, 4], ∀ r : Nat, ∀ e ∈ emit k r,
    e.label = String.join (e.idx.map component) ∧
    e.line = e.label ++ ", " ++ idxStr e.idx ++ "," := by
  intro k hk r e he
  rw [← generic_eq_emit k hk r] at he
  simp only [genericEmit, List.mem_map] at he
  obtain ⟨t, -, rfl⟩ := he
  exact ⟨(labelStr_eq_join_component t).symm ▸ rfl, rfl⟩

/-- Claim C7: for `r` beyond the alphabet (`r > 4`) the emitter still
emits one line per tuple of the full product; every index contributes its
`component` fragment to the label, which is the empty string for indices
`≥ 4`, while the numeric indices are still printed in the line. -/
theorem c7_out_of_range :
    ∀ r : Nat, 4 < r → ∀ k ∈ [1, 2, 3, 4],
      (emit k r).length = r ^ k ∧
      (∀ i : Nat, 4 ≤ i → component i = "") ∧
      ∀ e ∈ emit k r,
        e.label = String.join (e.idx.map component) ∧
        e.line = e.label ++ ", " ++ idxStr e.idx ++ "," := by
  intro r _ k hk
  exact ⟨emit_length k hk r, fun i hi => component_eq_empty i hi,
    fun e he => emit_shape k hk r e he⟩

/-- Witness for C7 at `r = 5`, `k = 1`. -/
theorem c7_witness :
    (4 < 5 ∧ 1 ∈ [1, 2, 3, 4]) ∧
    ((emit 1 5).length = 5 ^ 1 ∧
      (∀ i : Nat, 4 ≤ i → component i = "") ∧
      ∀ e ∈ emit 1 5,
        e.label = String.join (e.idx.map component) ∧
        e.line = e.label ++ ", " ++ idxStr e.idx ++ ",") :=
  ⟨⟨by decide, by decide⟩, c7_out_of_range 5 (by decide) 1 (by decide)⟩
